import Mathlib

/-!
Shallow embedding of `src/snakegame.py` (a classic Snake game).

Positions are pixel coordinates, stored as pairs of integers; the Python
code keeps them aligned to a 20-pixel cell grid.  Directions are pixel
displacement vectors of one cell.  Python's `%` on integers with a positive
modulus agrees with Lean's `Int.emod` (both return a value in `[0, m)`),
so `wrap_position` translates directly.

Randomness (`random.randrange`) is modelled by an explicit sample stream
`g : Nat → Fin 32 × Fin 24` (each sample is a pair of in-range grid indices,
exactly the contract of `randrange(0, GRID_WIDTH)` / `randrange(0, GRID_HEIGHT)`),
and the unbounded `while True` rejection loop of `Apple.randomize_position`
is run with explicit fuel, returning `none` when the fuel is exhausted.
-/

namespace SnakeGame

/-- Constant `SCREEN_WIDTH = 640` (snakegame.py line 23). -/
def SCREEN_WIDTH : Int := 640

/-- Constant `SCREEN_HEIGHT = 480` (snakegame.py line 24). -/
def SCREEN_HEIGHT : Int := 480

/-- Constant `CELL_SIZE = 20` (snakegame.py line 25). -/
def CELL_SIZE : Int := 20

/-- Constant `GRID_WIDTH = SCREEN_WIDTH // CELL_SIZE` (= 32, line 27). -/
def GRID_WIDTH : Int := SCREEN_WIDTH / CELL_SIZE

/-- Constant `GRID_HEIGHT = SCREEN_HEIGHT // CELL_SIZE` (= 24, line 28). -/
def GRID_HEIGHT : Int := SCREEN_HEIGHT / CELL_SIZE

/-- Color `GREEN` (line 33). -/
def GREEN : Int × Int × Int := (0, 255, 0)

/-- Color `RED` (line 34). -/
def RED : Int × Int × Int := (255, 0, 0)

/-- Direction `UP = (0, -CELL_SIZE)` (line 36). -/
def UP : Int × Int := (0, -CELL_SIZE)

/-- Direction `DOWN = (0, CELL_SIZE)` (line 37). -/
def DOWN : Int × Int := (0, CELL_SIZE)

/-- Direction `LEFT = (-CELL_SIZE, 0)` (line 38). -/
def LEFT : Int × Int := (-CELL_SIZE, 0)

/-- Direction `RIGHT = (CELL_SIZE, 0)` (line 39). -/
def RIGHT : Int × Int := (CELL_SIZE, 0)

/-- The four direction constants; `handle_keys` only ever assigns these. -/
def dirList : List (Int × Int) := [UP, DOWN, LEFT, RIGHT]

/-- Function `wrap_position` (lines 42-53): wrap a pixel position through
the walls, `return x % SCREEN_WIDTH, y % SCREEN_HEIGHT`. -/
def wrap_position (p : Int × Int) : Int × Int :=
  (p.1 % SCREEN_WIDTH, p.2 % SCREEN_HEIGHT)

/-- The `Snake` object (lines 108-181).  Field `position` is the inherited
`GameObject.position` (the head alias), `positions` the segment list
(head first), `length` the target segment count, `direction` and
`next_direction` the current and pending directions, and `last_tail`
the field the source spells `_last_tail` (the most recently vacated
tail cell, kept so `draw` can erase it). -/
structure Snake where
  position : Int × Int
  body_color : Int × Int × Int
  length : Nat
  positions : List (Int × Int)
  direction : Int × Int
  next_direction : Option (Int × Int)
  last_tail : Option (Int × Int)
deriving DecidableEq

/-- Constructor `Snake.__init__` (lines 115-124): one segment at the grid
center, length 1, direction `RIGHT`, no pending direction, no recorded
tail. -/
def Snake.init : Snake :=
  let center_x : Int := (GRID_WIDTH / 2) * CELL_SIZE
  let center_y : Int := (GRID_HEIGHT / 2) * CELL_SIZE
  { position := (center_x, center_y)
    body_color := GREEN
    length := 1
    positions := [(center_x, center_y)]
    direction := RIGHT
    next_direction := none
    last_tail := none }

/-- Method `Snake.get_head_position` (lines 126-130):
`return self.positions[0]`.  `headI` gives the first element; the
theorems below only use it on states whose `positions` is nonempty,
matching the Python precondition. -/
def Snake.get_head_position (s : Snake) : Int × Int :=
  s.positions.headI

/-- Method `Snake.update_direction` (lines 132-148): apply `next_direction`
unless it is unset or opposite to the current direction (vector sum
zero); in every case clear `next_direction`. -/
def Snake.update_direction (s : Snake) : Snake :=
  match s.next_direction with
  | none => s
  | some nd =>
    if (s.direction.1 + nd.1, s.direction.2 + nd.2) = ((0 : Int), (0 : Int)) then
      { s with next_direction := none }
    else
      { s with direction := nd, next_direction := none }

/-- The local `new_head` of `Snake.move` (line 160):
`wrap_position((head_x + dx, head_y + dy))`. -/
def Snake.new_head (s : Snake) : Int × Int :=
  wrap_position (s.get_head_position.1 + s.direction.1,
    s.get_head_position.2 + s.direction.2)

/-- Method `Snake.move` (lines 150-167): insert the wrapped new head; if
the list now exceeds `length`, pop the tail and record it in
`_last_tail` (otherwise `_last_tail` stays `None` for this tick);
update the `position` alias to the new head. -/
def Snake.move (s : Snake) : Snake :=
  let positions1 := s.new_head :: s.positions
  if positions1.length > s.length then
    { s with
      positions := positions1.dropLast
      last_tail := positions1.getLast?
      position := s.new_head }
  else
    { s with
      positions := positions1
      last_tail := none
      position := s.new_head }

/-- Method `Snake.reset` (lines 169-181): restore the creation state. -/
def Snake.reset (s : Snake) : Snake :=
  let center_x : Int := (GRID_WIDTH / 2) * CELL_SIZE
  let center_y : Int := (GRID_HEIGHT / 2) * CELL_SIZE
  { s with
    length := 1
    positions := [(center_x, center_y)]
    direction := RIGHT
    next_direction := none
    last_tail := none
    position := (center_x, center_y) }

/-- Steering, from `handle_keys` (lines 197-216): a directional key press
performs `snake.next_direction = d` for `d` one of `UP`, `DOWN`,
`LEFT`, `RIGHT`. -/
def Snake.steer (s : Snake) (d : Int × Int) : Snake :=
  { s with next_direction := some d }

/-- Growth, from `main` (line 252): `snake.length += 1`, performed when
the apple is eaten; the spec calls this operation `grow()`. -/
def Snake.grow (s : Snake) : Snake :=
  { s with length := s.length + 1 }

/-- The self-collision test of `main` (lines 256-257):
`head in snake.positions[1:]`. -/
def Snake.detect_self_collision (s : Snake) : Bool :=
  decide (s.get_head_position ∈ s.positions.tail)

/-- One sample of `Apple.randomize_position`'s loop body (lines 94-95):
`x = randrange(0, GRID_WIDTH) * CELL_SIZE`,
`y = randrange(0, GRID_HEIGHT) * CELL_SIZE`.  The grid indices are
in-range by `randrange`'s contract, so they are drawn from
`Fin 32 × Fin 24` (`GRID_WIDTH = 32`, `GRID_HEIGHT = 24`). -/
def candidate (c : Fin 32 × Fin 24) : Int × Int :=
  ((c.1 : Int) * CELL_SIZE, (c.2 : Int) * CELL_SIZE)

/-- Method `Apple.randomize_position` (lines 86-98): rejection-sample
cells from the stream `g` starting at stream index `i` until one is
found outside `forbidden`; that cell is the committed apple position.
The Python loop is unbounded (`while True`); here it runs for at most
`fuel` iterations and returns `none` when the fuel runs out. -/
def randomize_position (g : Nat → Fin 32 × Fin 24) (forbidden : List (Int × Int)) :
    Nat → Nat → Option (Int × Int)
  | _, 0 => none
  | i, fuel + 1 =>
    let c := candidate (g i)
    if c ∈ forbidden then randomize_position g forbidden (i + 1) fuel
    else some c

/-- States of the snake reachable from construction by the operations the
game loop performs: steering (only ever with one of the four direction
constants), `update_direction`, `move`, `grow` and `reset`. -/
inductive Reachable : Snake → Prop where
  | init : Reachable Snake.init
  | steer {s : Snake} {d : Int × Int} : Reachable s → d ∈ dirList → Reachable (s.steer d)
  | update {s : Snake} : Reachable s → Reachable s.update_direction
  | move {s : Snake} : Reachable s → Reachable s.move
  | grow {s : Snake} : Reachable s → Reachable s.grow
  | reset {s : Snake} : Reachable s → Reachable s.reset

/-- A pixel position inside the screen rectangle. -/
def inGrid (p : Int × Int) : Prop :=
  0 ≤ p.1 ∧ p.1 < SCREEN_WIDTH ∧ 0 ≤ p.2 ∧ p.2 < SCREEN_HEIGHT

instance (p : Int × Int) : Decidable (inGrid p) :=
  decidable_of_iff (0 ≤ p.1 ∧ p.1 < SCREEN_WIDTH ∧ 0 ≤ p.2 ∧ p.2 < SCREEN_HEIGHT)
    Iff.rfl

/-- Consecutive entries of the list are distinct. -/
def adjacentDistinct : List (Int × Int) → Prop
  | [] => True
  | [_] => True
  | a :: b :: t => a ≠ b ∧ adjacentDistinct (b :: t)

/-- The invariant every reachable snake state satisfies: a nonempty
segment list of in-screen cells with no two consecutive cells equal, a
current direction among the four constants, a pending direction (if set)
among the four constants, and a head alias equal to `positions[0]`. -/
def SnakeInv (s : Snake) : Prop :=
  s.positions ≠ [] ∧
  (∀ p ∈ s.positions, inGrid p) ∧
  adjacentDistinct s.positions ∧
  s.direction ∈ dirList ∧
  (∀ d, s.next_direction = some d → d ∈ dirList) ∧
  s.position = s.positions.headI

/-- Extend a finite sample prefix to a full stream (padding arbitrarily). -/
def extendSamples {n : Nat} (f : Fin n → Fin 32 × Fin 24) : Nat → Fin 32 × Fin 24 :=
  fun i => if h : i < n then f ⟨i, h⟩ else (0, 0)

/-- The sample prefixes of length `n` on which `randomize_position` is
still rejecting after `n` iterations.  `random.randrange` draws every
grid cell with equal probability, so a run of `n` loop iterations is
driven by one of the `768 ^ n` equally likely elements of
`Fin n → Fin 32 × Fin 24` (`768 = 32 * 24` grid cells); "terminates with
probability 1" is the statement that the fraction
`(stuckSet forbidden n).card / 768 ^ n` tends to `0`. -/
def stuckSet (forbidden : List (Int × Int)) (n : Nat) :
    Finset (Fin n → Fin 32 × Fin 24) :=
  Finset.univ.filter
    (fun f => randomize_position (extendSamples f) forbidden 0 n = none)

/-- The grid cells whose pixel position lies in the forbidden list. -/
def forbiddenCells (forbidden : List (Int × Int)) : Finset (Fin 32 × Fin 24) :=
  Finset.univ.filter (fun c => candidate c ∈ forbidden)

/-! Helper lemmas. -/

/-- Both coordinates of a wrapped position lie in the screen rectangle. -/
lemma wrap_position_bounds (p : Int × Int) :
    0 ≤ (wrap_position p).1 ∧ (wrap_position p).1 < SCREEN_WIDTH ∧
    0 ≤ (wrap_position p).2 ∧ (wrap_position p).2 < SCREEN_HEIGHT := by
  refine ⟨Int.emod_nonneg _ ?_, Int.emod_lt_of_pos _ ?_,
    Int.emod_nonneg _ ?_, Int.emod_lt_of_pos _ ?_⟩ <;> decide

/-- Alignment and bounds of a sampled apple cell. -/
lemma candidate_spec (c : Fin 32 × Fin 24) :
    CELL_SIZE ∣ (candidate c).1 ∧ CELL_SIZE ∣ (candidate c).2 ∧
    0 ≤ (candidate c).1 ∧ (candidate c).1 < SCREEN_WIDTH ∧
    0 ≤ (candidate c).2 ∧ (candidate c).2 < SCREEN_HEIGHT := by
  have hx0 : (0 : Int) ≤ (c.1 : Nat) := Int.natCast_nonneg _
  have hy0 : (0 : Int) ≤ (c.2 : Nat) := Int.natCast_nonneg _
  have hx : ((c.1 : Nat) : Int) < 32 := by exact_mod_cast c.1.isLt
  have hy : ((c.2 : Nat) : Int) < 24 := by exact_mod_cast c.2.isLt
  refine ⟨dvd_mul_left _ _, dvd_mul_left _ _, ?_, ?_, ?_, ?_⟩ <;>
    simp only [candidate, CELL_SIZE, SCREEN_WIDTH, SCREEN_HEIGHT] <;> omega

/-- Prepending a fresh head preserves adjacent distinctness. -/
lemma adjacentDistinct_cons {a : Int × Int} {l : List (Int × Int)}
    (hl : l ≠ []) (hne : a ≠ l.headI) (h : adjacentDistinct l) :
    adjacentDistinct (a :: l) := by
  cases l with
  | nil => exact absurd rfl hl
  | cons b t => exact ⟨by simpa using hne, h⟩

/-- Popping the tail preserves adjacent distinctness. -/
lemma adjacentDistinct_dropLast :
    ∀ l : List (Int × Int), adjacentDistinct l → adjacentDistinct l.dropLast := by
  intro l
  induction l with
  | nil => intro h; exact h
  | cons a t ih =>
    cases t with
    | nil => intro _; exact trivial
    | cons b u =>
      intro h
      rw [List.dropLast_cons₂]
      cases u with
      | nil => exact trivial
      | cons c v =>
        have h2 := ih h.2
        rw [List.dropLast_cons₂] at h2 ⊢
        exact ⟨h.1, h2⟩

/-- Adding an offset that is no multiple of `m` and reducing mod `m`
moves the point. -/
lemma emod_add_ne (x a m : Int) (h0 : 0 ≤ x) (hm : x < m) (ha : a % m ≠ 0) :
    (x + a) % m ≠ x := by
  intro h
  apply ha
  have hx : x % m = x := Int.emod_eq_of_lt h0 hm
  have h2 : (x + a) % m = x % m := by rw [h, hx]
  have h3 := Int.emod_eq_emod_iff_emod_sub_eq_zero.mp h2
  rwa [add_sub_cancel_left] at h3

/-- One wrapped step in any of the four directions leaves the cell. -/
lemma step_ne {p d : Int × Int} (hp : inGrid p) (hd : d ∈ dirList) :
    wrap_position (p.1 + d.1, p.2 + d.2) ≠ p := by
  obtain ⟨h1, h2, h3, h4⟩ := hp
  simp only [dirList, UP, DOWN, LEFT, RIGHT, CELL_SIZE, List.mem_cons,
    List.not_mem_nil, or_false] at hd
  rcases hd with rfl | rfl | rfl | rfl
  · exact fun heq =>
      emod_add_ne p.2 (-20) SCREEN_HEIGHT h3 h4 (by decide) (congrArg Prod.snd heq)
  · exact fun heq =>
      emod_add_ne p.2 20 SCREEN_HEIGHT h3 h4 (by decide) (congrArg Prod.snd heq)
  · exact fun heq =>
      emod_add_ne p.1 (-20) SCREEN_WIDTH h1 h2 (by decide) (congrArg Prod.fst heq)
  · exact fun heq =>
      emod_add_ne p.1 20 SCREEN_WIDTH h1 h2 (by decide) (congrArg Prod.fst heq)

/-- The default-valued head of a nonempty list is a member. -/
lemma headI_mem {l : List (Int × Int)} (h : l ≠ []) : l.headI ∈ l := by
  cases l with
  | nil => exact absurd rfl h
  | cons a t => exact List.mem_cons_self a t

/-- A state whose mutable fields carry the creation values satisfies the
invariant (covers both `__init__` and `reset`). -/
lemma snakeInv_of_fields {s : Snake}
    (h1 : s.positions = [((GRID_WIDTH / 2) * CELL_SIZE, (GRID_HEIGHT / 2) * CELL_SIZE)])
    (h2 : s.direction = RIGHT) (h3 : s.next_direction = none)
    (h4 : s.position = ((GRID_WIDTH / 2) * CELL_SIZE, (GRID_HEIGHT / 2) * CELL_SIZE)) :
    SnakeInv s := by
  refine ⟨?_, ?_, ?_, ?_, ?_, ?_⟩
  · rw [h1]; exact List.cons_ne_nil _ _
  · rw [h1]; intro p hp; rw [List.mem_singleton.mp hp]; decide
  · rw [h1]; exact trivial
  · rw [h2]; decide
  · intro d hd; rw [h3] at hd; exact Option.noConfusion hd
  · rw [h4, h1]; rfl

/-- The initial state satisfies the invariant. -/
lemma snakeInv_init : SnakeInv Snake.init :=
  snakeInv_of_fields rfl rfl rfl rfl

/-- Resetting establishes the invariant from any state. -/
lemma snakeInv_reset (s : Snake) : SnakeInv s.reset :=
  snakeInv_of_fields rfl rfl rfl rfl

/-- Steering with one of the four constants preserves the invariant. -/
lemma snakeInv_steer {s : Snake} {d : Int × Int} (hs : SnakeInv s)
    (hd : d ∈ dirList) : SnakeInv (s.steer d) := by
  obtain ⟨h1, h2, h3, h4, _, h6⟩ := hs
  exact ⟨h1, h2, h3, h4, fun d' hd' => by cases Option.some.inj hd'; exact hd, h6⟩

/-- Characterization of `update_direction` with no pending direction. -/
lemma update_eq_of_none {s : Snake} (h : s.next_direction = none) :
    s.update_direction = s := by
  unfold Snake.update_direction
  rw [h]

/-- Characterization of `update_direction` on an instant reversal. -/
lemma update_eq_of_reverse {s : Snake} {nd : Int × Int}
    (h : s.next_direction = some nd)
    (hz : (s.direction.1 + nd.1, s.direction.2 + nd.2) = ((0 : Int), (0 : Int))) :
    s.update_direction = { s with next_direction := none } := by
  simp only [Snake.update_direction, h]
  rw [if_pos hz]

/-- Characterization of `update_direction` on an accepted steer. -/
lemma update_eq_of_turn {s : Snake} {nd : Int × Int}
    (h : s.next_direction = some nd)
    (hz : ¬(s.direction.1 + nd.1, s.direction.2 + nd.2) = ((0 : Int), (0 : Int))) :
    s.update_direction = { s with direction := nd, next_direction := none } := by
  simp only [Snake.update_direction, h]
  rw [if_neg hz]

/-- Applying the pending direction preserves the invariant. -/
lemma snakeInv_update {s : Snake} (hs : SnakeInv s) :
    SnakeInv s.update_direction := by
  obtain ⟨h1, h2, h3, h4, h5, h6⟩ := hs
  cases hnd : s.next_direction with
  | none =>
    rw [update_eq_of_none hnd]
    exact ⟨h1, h2, h3, h4, h5, h6⟩
  | some nd =>
    by_cases hz : (s.direction.1 + nd.1, s.direction.2 + nd.2) = ((0 : Int), (0 : Int))
    · rw [update_eq_of_reverse hnd hz]
      exact ⟨h1, h2, h3, h4, fun d hd => Option.noConfusion hd, h6⟩
    · rw [update_eq_of_turn hnd hz]
      exact ⟨h1, h2, h3, h5 nd hnd, fun d hd => Option.noConfusion hd, h6⟩

/-- Growing only changes the target length, not the invariant fields. -/
lemma snakeInv_grow {s : Snake} (hs : SnakeInv s) : SnakeInv s.grow := hs

/-- Characterization of `move` when the tail is popped. -/
lemma move_eq_pop {s : Snake} (h : (s.new_head :: s.positions).length > s.length) :
    s.move = { s with
      positions := (s.new_head :: s.positions).dropLast
      last_tail := (s.new_head :: s.positions).getLast?
      position := s.new_head } := by
  simp only [Snake.move]
  rw [if_pos h]

/-- Characterization of `move` when the snake is still growing. -/
lemma move_eq_nopop {s : Snake} (h : ¬(s.new_head :: s.positions).length > s.length) :
    s.move = { s with
      positions := s.new_head :: s.positions
      last_tail := none
      position := s.new_head } := by
  simp only [Snake.move]
  rw [if_neg h]

/-- Moving preserves the invariant. -/
lemma snakeInv_move {s : Snake} (hs : SnakeInv s) : SnakeInv s.move := by
  obtain ⟨hne, hgrid, hadj, hpdir, hnext, hpos⟩ := hs
  have hgr : inGrid s.new_head := wrap_position_bounds _
  have hne2 : s.new_head ≠ s.positions.headI :=
    step_ne (hgrid _ (headI_mem hne)) hpdir
  have hadj2 : adjacentDistinct (s.new_head :: s.positions) :=
    adjacentDistinct_cons hne hne2 hadj
  have hgrid2 : ∀ p ∈ s.new_head :: s.positions, inGrid p := by
    intro p hp
    rcases List.mem_cons.mp hp with rfl | hp2
    · exact hgr
    · exact hgrid _ hp2
  by_cases hc : (s.new_head :: s.positions).length > s.length
  · rw [move_eq_pop hc]
    refine ⟨?_, ?_, ?_, hpdir, hnext, ?_⟩
    · apply List.ne_nil_of_length_pos
      rw [List.length_dropLast, List.length_cons]
      simpa using List.length_pos.mpr hne
    · intro p hp
      exact hgrid2 _ (List.mem_of_mem_dropLast hp)
    · exact adjacentDistinct_dropLast _ hadj2
    · show s.new_head = ((s.new_head :: s.positions).dropLast).headI
      cases hps : s.positions with
      | nil => exact absurd hps hne
      | cons b t => rw [List.dropLast_cons₂, List.headI_cons]
  · rw [move_eq_nopop hc]
    exact ⟨List.cons_ne_nil _ _, hgrid2, hadj2, hpdir, hnext, rfl⟩

/-- Every reachable state satisfies the invariant. -/
lemma snakeInv_of_reachable {s : Snake} (h : Reachable s) : SnakeInv s := by
  induction h with
  | init => exact snakeInv_init
  | steer hr hd ih => exact snakeInv_steer ih hd
  | update hr ih => exact snakeInv_update ih
  | move hr ih => exact snakeInv_move ih
  | grow hr ih => exact snakeInv_grow ih
  | reset hr ih => exact snakeInv_reset _

/-- The loop rejects for `fuel` iterations iff every one of the `fuel`
consumed samples lands in the forbidden list. -/
lemma randomize_position_eq_none_iff (g : Nat → Fin 32 × Fin 24)
    (forbidden : List (Int × Int)) :
    ∀ (fuel i : Nat),
      randomize_position g forbidden i fuel = none ↔
      ∀ j < fuel, candidate (g (i + j)) ∈ forbidden := by
  intro fuel
  induction fuel with
  | zero => intro i; simp [randomize_position]
  | succ m ih =>
    intro i
    simp only [randomize_position]
    by_cases hc : candidate (g i) ∈ forbidden
    · rw [if_pos hc, ih (i + 1)]
      constructor
      · intro h j hj
        match j with
        | 0 => simpa using hc
        | k + 1 =>
          have hk := h k (by omega)
          rw [show i + 1 + k = i + (k + 1) from by omega] at hk
          exact hk
      · intro h j hj
        have hk := h (j + 1) (by omega)
        rw [show i + (j + 1) = i + 1 + j from by omega] at hk
        exact hk
    · rw [if_neg hc]
      constructor
      · intro h; exact Option.noConfusion h
      · intro h
        exact absurd (by simpa using h 0 (Nat.succ_pos m)) hc

/-- Counting: the stuck prefixes of length `n` are the functions into the
forbidden cells, so there are exactly `|forbiddenCells| ^ n` of them. -/
lemma stuckSet_card (forbidden : List (Int × Int)) (n : Nat) :
    (stuckSet forbidden n).card = (forbiddenCells forbidden).card ^ n := by
  have hset : stuckSet forbidden n =
      Finset.univ.filter
        (fun f : Fin n → Fin 32 × Fin 24 => ∀ i, candidate (f i) ∈ forbidden) := by
    apply Finset.ext
    intro f
    simp only [stuckSet, Finset.mem_filter, Finset.mem_univ, true_and]
    rw [randomize_position_eq_none_iff]
    constructor
    · intro h i
      have hi := h (i : Nat) i.isLt
      rw [Nat.zero_add] at hi
      simpa [extendSamples, i.isLt] using hi
    · intro h j hj
      rw [Nat.zero_add]
      simpa [extendSamples, hj] using h ⟨j, hj⟩
  rw [hset]
  calc (Finset.univ.filter
        (fun f : Fin n → Fin 32 × Fin 24 => ∀ i, candidate (f i) ∈ forbidden)).card
      = Fintype.card {f : Fin n → Fin 32 × Fin 24 // ∀ i, candidate (f i) ∈ forbidden} :=
        (Fintype.card_subtype _).symm
    _ = Fintype.card (Fin n → {b : Fin 32 × Fin 24 // candidate b ∈ forbidden}) :=
        Fintype.card_congr
          (@Equiv.subtypePiEquivPi (Fin n) (fun _ => Fin 32 × Fin 24)
            (fun _ b => candidate b ∈ forbidden))
    _ = Fintype.card {b : Fin 32 × Fin 24 // candidate b ∈ forbidden} ^ n := by
        rw [Fintype.card_fun, Fintype.card_fin]
    _ = (forbiddenCells forbidden).card ^ n := by
        rw [Fintype.card_subtype]; rfl

/-- If some cell is free, the forbidden cells are a proper subset of the
`768 = 32 * 24` grid cells. -/
lemma forbiddenCells_card_lt (forbidden : List (Int × Int))
    (h : ∃ c : Fin 32 × Fin 24, candidate c ∉ forbidden) :
    (forbiddenCells forbidden).card < 768 := by
  obtain ⟨c, hc⟩ := h
  have hne : forbiddenCells forbidden ≠ Finset.univ := by
    intro he
    have hmem : c ∈ forbiddenCells forbidden := he.symm ▸ Finset.mem_univ c
    exact hc (Finset.mem_filter.mp hmem).2
  have hsub : forbiddenCells forbidden ⊂ Finset.univ :=
    ssubset_of_subset_of_ne (Finset.subset_univ _) hne
  have hcard := Finset.card_lt_card hsub
  have huniv : (Finset.univ : Finset (Fin 32 × Fin 24)).card = 768 := by
    rw [Finset.card_univ, Fintype.card_prod, Fintype.card_fin, Fintype.card_fin]
  omega

/-! The ten claims. -/

/-- Claim C1, counterexample: one `move` from the initial state does NOT
leave the vacated-tail record empty — the popped tail `(320, 240)` is
recorded in `_last_tail`, so the claimed conjunction is false. -/
theorem initial_move_no_vacated_tail_ce :
    ¬(Snake.init.move.get_head_position = (340, 240) ∧
      Snake.init.move.positions = [(340, 240)] ∧
      Snake.init.move.last_tail = none) := by
  decide

/-- Claim C1, amended: one `move` from the initial state yields head
`(340, 240)`, segment list `[(340, 240)]`, and records the vacated tail
cell `(320, 240)` (the old head, popped because the two-element list
exceeded the target length 1). -/
theorem initial_move_head_segments_tail :
    Snake.init.move.get_head_position = (340, 240) ∧
    Snake.init.move.positions = [(340, 240)] ∧
    Snake.init.move.last_tail = some (320, 240) := by
  decide

/-- Claim C2: for every integer position `p` and every direction vector
`d`, `wrap_position (p + d)` has x in `[0, SCREEN_WIDTH)` and y in
`[0, SCREEN_HEIGHT)`; the modulo is never negative. -/
theorem wrap_position_in_bounds (p d : Int × Int) :
    0 ≤ (wrap_position (p.1 + d.1, p.2 + d.2)).1 ∧
    (wrap_position (p.1 + d.1, p.2 + d.2)).1 < SCREEN_WIDTH ∧
    0 ≤ (wrap_position (p.1 + d.1, p.2 + d.2)).2 ∧
    (wrap_position (p.1 + d.1, p.2 + d.2)).2 < SCREEN_HEIGHT :=
  wrap_position_bounds _

/-- Claim C3: when the pending direction is the exact opposite of the
current one (componentwise sum zero), `update_direction` keeps the
current direction and clears the pending one. -/
theorem update_direction_rejects_reversal (s : Snake) (nd : Int × Int)
    (h1 : s.next_direction = some nd)
    (h2 : s.direction.1 + nd.1 = 0) (h3 : s.direction.2 + nd.2 = 0) :
    s.update_direction.direction = s.direction ∧
    s.update_direction.next_direction = none := by
  unfold Snake.update_direction
  rw [h1]
  simp [Prod.ext_iff, h2, h3]

/-- Witness for C3: steering `LEFT` while travelling `RIGHT` is rejected. -/
theorem update_direction_rejects_reversal_witness :
    (Snake.init.steer LEFT).update_direction.direction =
      (Snake.init.steer LEFT).direction ∧
    (Snake.init.steer LEFT).update_direction.next_direction = none :=
  update_direction_rejects_reversal (Snake.init.steer LEFT) LEFT
    (by decide) (by decide) (by decide)

/-- Claim C4: from a state with as many segments as its target length,
`grow` followed by one `move` adds exactly one segment and pops no tail
(no vacated cell is recorded on that move). -/
theorem grow_then_move_adds_segment (s : Snake)
    (hne : s.positions ≠ []) (hlen : s.positions.length = s.length) :
    s.grow.move.positions.length = s.positions.length + 1 ∧
    s.grow.move.last_tail = none := by
  simp [Snake.move, Snake.grow, hlen]

/-- Witness for C4: the initial snake (1 segment, length 1). -/
theorem grow_then_move_adds_segment_witness :
    Snake.init.grow.move.positions.length = Snake.init.positions.length + 1 ∧
    Snake.init.grow.move.last_tail = none :=
  grow_then_move_adds_segment Snake.init (by decide) (by decide)

/-- Claim C5: from a state with as many segments as its target length
(no growth pending), one `move` leaves the segment count unchanged. -/
theorem move_preserves_segment_count (s : Snake)
    (hne : s.positions ≠ []) (hlen : s.positions.length = s.length) :
    s.move.positions.length = s.positions.length := by
  have hcond : (s.new_head :: s.positions).length > s.length := by
    simp [← hlen]
  simp only [Snake.move]
  rw [if_pos hcond]
  simp [List.length_dropLast]

/-- Witness for C5: the initial snake (1 segment, length 1). -/
theorem move_preserves_segment_count_witness :
    Snake.init.move.positions.length = Snake.init.positions.length :=
  move_preserves_segment_count Snake.init (by decide) (by decide)

/-- Claim C6: whenever `randomize_position` commits a position, that
position is not a member of the forbidden list it was given. -/
theorem randomize_position_avoids_forbidden (g : Nat → Fin 32 × Fin 24)
    (forbidden : List (Int × Int)) :
    ∀ (fuel i : Nat) (p : Int × Int),
      randomize_position g forbidden i fuel = some p → p ∉ forbidden := by
  intro fuel
  induction fuel with
  | zero => intro i p h; simp [randomize_position] at h
  | succ n ih =>
    intro i p h
    rw [randomize_position] at h
    by_cases hc : candidate (g i) ∈ forbidden
    · rw [if_pos hc] at h
      exact ih _ _ h
    · rw [if_neg hc] at h
      cases Option.some.inj h
      exact hc

/-- Witness for C6: a stream stuck at cell index `(0, 0)` with forbidden
list `[(20, 20)]` commits `(0, 0)`, which indeed avoids the list. -/
theorem randomize_position_avoids_forbidden_witness :
    ((0, 0) : Int × Int) ∉ ([(20, 20)] : List (Int × Int)) :=
  randomize_position_avoids_forbidden (fun _ => (0, 0)) [(20, 20)] 1 0 (0, 0)
    (by decide)

/-- Claim C7: if the forbidden list does not cover the whole grid, the
rejection sampling of `randomize_position` terminates with probability 1:
the fraction of the `768 ^ n` equally likely sample prefixes of length
`n` on which the loop is still rejecting after `n` iterations tends to
`0` as `n` grows (it equals `(|forbiddenCells| / 768) ^ n` with ratio
strictly below one). -/
theorem randomize_position_stuck_fraction_tendsto_zero
    (forbidden : List (Int × Int))
    (h : ∃ c : Fin 32 × Fin 24, candidate c ∉ forbidden) :
    Filter.Tendsto (fun n => ((stuckSet forbidden n).card : ℝ) / 768 ^ n)
      Filter.atTop (nhds 0) := by
  have hlt := forbiddenCells_card_lt forbidden h
  have heq : (fun n => ((stuckSet forbidden n).card : ℝ) / 768 ^ n) =
      fun n => (((forbiddenCells forbidden).card : ℝ) / 768) ^ n := by
    funext n
    rw [stuckSet_card, div_pow]
    push_cast
    ring
  rw [heq]
  apply tendsto_pow_atTop_nhds_zero_of_lt_one
  · positivity
  · rw [div_lt_one (by norm_num)]
    exact_mod_cast hlt

/-- Witness for C7: with an empty forbidden list (cell `(0, 0)` is free)
the stuck fraction tends to zero. -/
theorem randomize_position_stuck_fraction_tendsto_zero_witness :
    Filter.Tendsto (fun n => ((stuckSet [] n).card : ℝ) / 768 ^ n)
      Filter.atTop (nhds 0) :=
  randomize_position_stuck_fraction_tendsto_zero [] ⟨(0, 0), by simp⟩

/-- Claim C8, counterexample: applying `update_direction` twice between
two moves lets the snake reverse (RIGHT, then UP, then LEFT), so a
reachable state with only 3 segments already self-collides: grow, move,
steer UP, apply, steer LEFT, apply, grow, move from the initial state
gives segments `[(320,240), (340,240), (320,240)]` with head equal to
the third segment. -/
theorem self_collision_with_three_segments_ce :
    Reachable ((((Snake.init.grow.move.steer UP).update_direction.steer
        LEFT).update_direction.grow).move) ∧
    ((((Snake.init.grow.move.steer UP).update_direction.steer
        LEFT).update_direction.grow).move).positions.length = 3 ∧
    ((((Snake.init.grow.move.steer UP).update_direction.steer
        LEFT).update_direction.grow).move).detect_self_collision = true := by
  refine ⟨?_, by decide, by decide⟩
  exact Reachable.move (Reachable.grow (Reachable.update (Reachable.steer
    (Reachable.update (Reachable.steer (Reachable.move (Reachable.grow
      Reachable.init)) (by decide))) (by decide))))

/-- Claim C8, amended: under any sequence of steer / apply-direction /
move / grow (and reset) operations from the initial state, the
self-collision test is false whenever the snake has at most 2 segments;
with 3 segments it can already be true (see the counterexample). -/
theorem no_self_collision_up_to_two_segments {s : Snake} (h : Reachable s)
    (hlen : s.positions.length ≤ 2) : s.detect_self_collision = false := by
  obtain ⟨hne, -, hadj, -, -, -⟩ := snakeInv_of_reachable h
  cases hps : s.positions with
  | nil => exact absurd hps hne
  | cons a t =>
    cases t with
    | nil => simp [Snake.detect_self_collision, Snake.get_head_position, hps]
    | cons b u =>
      cases u with
      | nil =>
        rw [hps] at hadj
        simp [Snake.detect_self_collision, Snake.get_head_position, hps]
        exact hadj.1
      | cons c v =>
        rw [hps] at hlen
        simp only [List.length_cons] at hlen
        omega

/-- Witness for C8 (amended): the initial snake has 1 segment and does
not self-collide. -/
theorem no_self_collision_up_to_two_segments_witness :
    Snake.init.detect_self_collision = false :=
  no_self_collision_up_to_two_segments Reachable.init (by decide)

/-- Claim C9: in every reachable state (after construction and after any
sequence of moves, steers, direction updates, grows and resets) the
segment list is nonempty and the scalar `position` field equals its
first element — the head alias is never stale. -/
theorem position_eq_head_of_reachable {s : Snake} (h : Reachable s) :
    s.positions ≠ [] ∧ s.position = s.positions.headI :=
  ⟨(snakeInv_of_reachable h).1, (snakeInv_of_reachable h).2.2.2.2.2⟩

/-- Witness for C9: the state after one move from construction. -/
theorem position_eq_head_of_reachable_witness :
    Snake.init.move.positions ≠ [] ∧
    Snake.init.move.position = Snake.init.move.positions.headI :=
  position_eq_head_of_reachable (Reachable.move Reachable.init)

/-- Claim C10: whenever `randomize_position` commits a position, both its
coordinates are multiples of `CELL_SIZE` and it lies inside the screen
rectangle — apple positions are always grid-aligned. -/
theorem randomize_position_grid_aligned (g : Nat → Fin 32 × Fin 24)
    (forbidden : List (Int × Int)) :
    ∀ (fuel i : Nat) (p : Int × Int),
      randomize_position g forbidden i fuel = some p →
      CELL_SIZE ∣ p.1 ∧ CELL_SIZE ∣ p.2 ∧
      0 ≤ p.1 ∧ p.1 < SCREEN_WIDTH ∧ 0 ≤ p.2 ∧ p.2 < SCREEN_HEIGHT := by
  intro fuel
  induction fuel with
  | zero => intro i p h; simp [randomize_position] at h
  | succ n ih =>
    intro i p h
    rw [randomize_position] at h
    by_cases hc : candidate (g i) ∈ forbidden
    · rw [if_pos hc] at h
      exact ih _ _ h
    · rw [if_neg hc] at h
      cases Option.some.inj h
      exact candidate_spec (g i)

/-- Witness for C10: a stream stuck at cell index `(1, 1)` with an empty
forbidden list commits `(20, 20)`, which is aligned and in bounds. -/
theorem randomize_position_grid_aligned_witness :
    CELL_SIZE ∣ ((20, 20) : Int × Int).1 ∧ CELL_SIZE ∣ ((20, 20) : Int × Int).2 ∧
    0 ≤ ((20, 20) : Int × Int).1 ∧ ((20, 20) : Int × Int).1 < SCREEN_WIDTH ∧
    0 ≤ ((20, 20) : Int × Int).2 ∧ ((20, 20) : Int × Int).2 < SCREEN_HEIGHT :=
  randomize_position_grid_aligned (fun _ => (1, 1)) [] 1 0 (20, 20) (by decide)

end SnakeGame
